import Mathlib

/-!
Verification of the structural-context and diagnostic-correlation engine of the
vscode-polycrate extension (src/languageServer.ts and src/hoverProvider.ts).

The TypeScript sources are shallowly embedded below.  External effects (the
yaml library, the polycrate CLI subprocess, the filesystem) are modelled as
explicit parameters collected in `Env`; every `try`/`catch` of the source is
compiled into the corresponding total branch.  String operations mirror the
JavaScript semantics used by the source (`trim`, `trimStart`, `startsWith`,
`includes`, `indexOf`, `split('\n')`) on the ASCII documents the extension
processes, working over the underlying character lists so that all concrete
instances evaluate by kernel reduction.
-/

namespace VP

/-! ## JavaScript-style string primitives -/

/-- Whitespace characters removed by JavaScript trim on the documents at hand. -/
def jsWS (c : Char) : Bool :=
  c = ' ' || c = '\t' || c = '\n' || c = '\r'

/-- Is the first list a prefix of the second list of characters. -/
def lpre : List Char → List Char → Bool
  | [], _ => true
  | _ :: _, [] => false
  | a :: as, b :: bs => a = b && lpre as bs

/-- Does the second list occur as a contiguous sublist of the first. -/
def linfix (pat : List Char) : List Char → Bool
  | [] => lpre pat []
  | s@(_ :: rest) => lpre pat s || linfix pat rest

/-- Index of the first occurrence of a pattern in a character list. -/
def lidx (pat : List Char) : List Char → Option Nat
  | [] => if lpre pat [] then some 0 else none
  | s@(_ :: rest) => if lpre pat s then some 0 else (lidx pat rest).map (· + 1)

/-- JavaScript String.prototype.startsWith. -/
def jsStartsWith (s pat : String) : Bool := lpre pat.data s.data

/-- JavaScript String.prototype.includes. -/
def jsIncludes (s pat : String) : Bool := linfix pat.data s.data

/-- JavaScript String.prototype.indexOf, with the not-found case as none. -/
def jsIndexOf (s pat : String) : Option Nat := lidx pat.data s.data

/-- JavaScript String.prototype.trim. -/
def jsTrim (s : String) : String :=
  ⟨((s.data.dropWhile jsWS).reverse.dropWhile jsWS).reverse⟩

/-- JavaScript String.prototype.trimStart. -/
def jsTrimStart (s : String) : String := ⟨s.data.dropWhile jsWS⟩

/-- The source computes indentation as line.length - line.trimStart().length. -/
def jsIndent (s : String) : Nat := s.data.length - (s.data.dropWhile jsWS).length

/-- JavaScript String length (code units; the documents here are ASCII). -/
def jsLen (s : String) : Nat := s.data.length

/-- Drop the first n characters of a string. -/
def strDrop (s : String) (n : Nat) : String := ⟨s.data.drop n⟩

/-- The source's .replace(/['"]/g, '') : remove all quote characters. -/
def stripQuotes (s : String) : String :=
  ⟨s.data.filter (fun c => !(c = '\'' || c = '"'))⟩

/-- Splitting on a single newline character, as text.split('\n') does. -/
def splitNlGo (cur : List Char) : List Char → List String
  | [] => [⟨cur.reverse⟩]
  | c :: rest =>
    if c = '\n' then (⟨cur.reverse⟩ : String) :: splitNlGo [] rest
    else splitNlGo (c :: cur) rest

/-- text.split('\n') of the source. -/
def splitLines (s : String) : List String := splitNlGo [] s.data

/-- Concatenation of the lists produced for each element, in order; this is how
the source's for-loops push diagnostics per element. -/
def listConcatMap (f : α → List β) : List α → List β
  | [] => []
  | a :: t => f a ++ listConcatMap f t

/-- Pair each element with its index, as the source's indexed for-loops do. -/
def withIdx (i : Nat) : List α → List (Nat × α)
  | [] => []
  | a :: t => (i, a) :: withIdx (i + 1) t

/-! ## JavaScript value model

The yaml library hands the source dynamically typed values; `JsVal` is the
tagged-variant model of those (spec section 9 calls for exactly this shape).
Property access on a missing key or a non-object yields undefined, matching
the guarded accesses of the source. -/

mutual
inductive JsVal where
  | vstr (s : String)
  | vnum (n : Int)
  | vbool (b : Bool)
  | vnull
  | vundefined
  | varr (elems : JsElems)
  | vobj (fields : JsFields)
inductive JsElems where
  | nil
  | cons (v : JsVal) (t : JsElems)
inductive JsFields where
  | nil
  | cons (k : String) (v : JsVal) (t : JsFields)
end

/-- Build an array spine from a list of values. -/
def jsElemsOf : List JsVal → JsElems
  | [] => .nil
  | v :: t => .cons v (jsElemsOf t)

/-- The element list of an array spine. -/
def JsElems.toList : JsElems → List JsVal
  | .nil => []
  | .cons v t => v :: t.toList

/-- Build an object spine from a list of key-value pairs. -/
def jsFieldsOf : List (String × JsVal) → JsFields
  | [] => .nil
  | (k, v) :: t => .cons k v (jsFieldsOf t)

/-- An array value from a plain list. -/
def jarr (l : List JsVal) : JsVal := .varr (jsElemsOf l)

/-- An object value from plain key-value pairs. -/
def jobj (l : List (String × JsVal)) : JsVal := .vobj (jsFieldsOf l)

/-- First-match lookup in an object's field spine. -/
def lookupField : JsFields → String → JsVal
  | .nil, _ => .vundefined
  | .cons k' v rest, k => if k' = k then v else lookupField rest k

/-- Property access, undefined on non-objects (call sites guard the null case). -/
def JsVal.get : JsVal → String → JsVal
  | .vobj fields, k => lookupField fields k
  | _, _ => .vundefined

/-- JavaScript truthiness. -/
def jsTruthy : JsVal → Bool
  | .vstr s => s ≠ ""
  | .vnum n => n ≠ 0
  | .vbool b => b
  | .vnull => false
  | .vundefined => false
  | .varr _ => true
  | .vobj _ => true

/-- Array.isArray. -/
def jsIsArray : JsVal → Bool
  | .varr _ => true
  | _ => false

/-- typeof v === 'string'. -/
def jsIsString : JsVal → Bool
  | .vstr _ => true
  | _ => false

/-- Strict equality of a dynamic value with a string. -/
def jsEqStr : JsVal → String → Bool
  | .vstr t, s => decide (t = s)
  | _, _ => false

/-- v === undefined. -/
def jsIsUndefined : JsVal → Bool
  | .vundefined => true
  | _ => false

/-- The element list of an array value. -/
def jsArr : JsVal → List JsVal
  | .varr xs => xs.toList
  | _ => []

/-- typeof. -/
def jsTypeof : JsVal → String
  | .vstr _ => "string"
  | .vnum _ => "number"
  | .vbool _ => "boolean"
  | .vnull => "object"
  | .vundefined => "undefined"
  | .varr _ => "object"
  | .vobj _ => "object"

mutual
/-- JavaScript string coercion as used in template literals and in passing a
value where a string is expected (String.prototype.includes coerces its
argument the same way): strings unchanged, arrays joined by commas with null
and undefined elements blank, plain objects as the object placeholder. -/
def jsToDisplay : JsVal → String
  | .vstr s => s
  | .vnum n => toString n
  | .vbool b => if b then "true" else "false"
  | .vnull => "null"
  | .vundefined => "undefined"
  | .varr xs => jsElemsDisplay xs
  | .vobj _ => "[object Object]"
/-- Array.prototype.toString over the element spine. -/
def jsElemsDisplay : JsElems → String
  | .nil => ""
  | .cons v t =>
    (match v with
     | .vnull => ""
     | .vundefined => ""
     | v2 => jsToDisplay v2)
    ++ (match t with
        | .nil => ""
        | t2 => "," ++ jsElemsDisplay t2)
end

/-! ## Diagnostics -/

/-- vscode.Range restricted to the line/character fields the source sets. -/
structure Range where
  startLine : Nat
  startChar : Nat
  endLine : Nat
  endChar : Nat
deriving DecidableEq, Repr

/-- The two severities the source emits. -/
inductive Severity where
  | error
  | warning
deriving DecidableEq, Repr

/-- vscode.Diagnostic restricted to the fields the source sets. -/
structure Diagnostic where
  range : Range
  message : String
  severity : Severity
deriving DecidableEq, Repr

/-- new vscode.Range(0, 0, 0, 0), the fallback range. -/
def zeroRange : Range := ⟨0, 0, 0, 0⟩

/-- Count of diagnostics satisfying a predicate. -/
def countIf (p : Diagnostic → Bool) : List Diagnostic → Nat
  | [] => 0
  | d :: t => (if p d then 1 else 0) + countIf p t

/-! ## Document text searches (languageServer.ts lines 566-629) -/

/-- findTextInDocument: first line containing the search text, with the range
of the occurrence (lines 566-579). -/
def findTextAux (searchText : String) : Nat → List String → Option Range
  | _, [] => none
  | i, line :: rest =>
    match jsIndexOf line searchText with
    | some idx => some ⟨i, idx, i, idx + jsLen searchText⟩
    | none => findTextAux searchText (i + 1) rest

/-- findTextInDocument of the source, over the split lines of the document. -/
def findTextInDocument (lines : List String) (searchText : String) : Option Range :=
  findTextAux searchText 0 lines

/-- findBlockInDocument: first line containing both "- name:" and the block
name, with the range from the "- name:" occurrence to the line end
(lines 581-595). -/
def findBlockAux (blockName : String) : Nat → List String → Option Range
  | _, [] => none
  | i, line :: rest =>
    if jsIncludes line "- name:" && jsIncludes line blockName then
      some ⟨i, (jsIndexOf line "- name:").getD 0, i, jsLen line⟩
    else findBlockAux blockName (i + 1) rest

/-- findBlockInDocument of the source. -/
def findBlockInDocument (lines : List String) (blockName : String) : Option Range :=
  findBlockAux blockName 0 lines

/-- The loop body of findBlockFieldInDocument (lines 597-629): a line whose
trimmed text starts with "- name:" and contains the block name (re)enters the
target block and continues; otherwise a "- name:" line at indent at most the
stored block indent leaves the target block; while inside the target block the
first line whose trimmed text starts with fieldName plus a colon is returned
with the range of that occurrence in the untrimmed line.  The occurrence index
is guaranteed to exist by the startsWith guard, so the getD 0 default is never
used. -/
def findBFAux (blockName fieldName : String) :
    Nat → List String → Bool → Int → Option Range
  | _, [], _, _ => none
  | i, line :: rest, inTgt, bInd =>
    let t := jsTrim line
    let ind : Int := (jsIndent line : Int)
    if jsStartsWith t "- name:" && jsIncludes t blockName then
      findBFAux blockName fieldName (i + 1) rest true ind
    else
      let inTgt' := if inTgt && decide (ind ≤ bInd) && jsStartsWith t "- name:"
        then false else inTgt
      if inTgt' && jsStartsWith t (fieldName ++ ":") then
        let fi := (jsIndexOf line (fieldName ++ ":")).getD 0
        some ⟨i, fi, i, fi + jsLen fieldName + 1⟩
      else findBFAux blockName fieldName (i + 1) rest inTgt' bInd

/-- findBlockFieldInDocument of the source, starting outside any block with
blockIndent -1. -/
def findBlockFieldInDocument (lines : List String) (blockName fieldName : String) :
    Option Range :=
  findBFAux blockName fieldName 0 lines false (-1)

/-! ## Scope tracker (hoverProvider.ts getBlockContextAtPosition, lines 84-131) -/

/-- The mutable scan state of getBlockContextAtPosition. -/
structure HoverState where
  currentBlockName : Option String
  isInConfig : Bool
  blockIndent : Int
  configIndent : Int
deriving DecidableEq, Repr

/-- The initial scan state (currentBlockName null, indents -1). -/
def initHoverState : HoverState := ⟨none, false, -1, -1⟩

/-- JavaScript truthiness of the currentBlockName variable (null and the empty
string are falsy). -/
def jsTruthyOpt : Option String → Bool
  | none => false
  | some s => s ≠ ""

/-- The regex match for the "- name:" marker followed by whitespace and a
non-empty capture, applied to a trimmed line that starts with "- name:", then
the .replace(/['"]/g, '') of the source: the capture is
the rest of the line with leading whitespace removed (the line is trimmed, so a
whitespace-only rest is empty and the match fails), then quotes are stripped. -/
def nameCapture (t : String) : Option String :=
  let cap := jsTrimStart (strDrop t 7)
  if cap = "" then none else some (stripQuotes cap)

/-- One line of the scan loop of getBlockContextAtPosition.  The four branches
form an else-if chain exactly as in the source: a "- name:" line (re)opens a
block frame when its regex match succeeds and otherwise changes nothing; a
"config:" line strictly deeper than the block opens the config frame; a
non-blank line at indent at most configIndent closes only the config frame; a
non-blank non-"- name:" line at indent at most blockIndent closes the block. -/
def hoverStep (s : HoverState) (line : String) : HoverState :=
  let t := jsTrim line
  let ind : Int := (jsIndent line : Int)
  if jsStartsWith t "- name:" then
    match nameCapture t with
    | some nm => ⟨some nm, false, ind, -1⟩
    | none => s
  else if jsTruthyOpt s.currentBlockName && decide (t = "config:")
      && decide (ind > s.blockIndent) then
    { s with isInConfig := true, configIndent := ind }
  else if s.isInConfig && decide (ind ≤ s.configIndent) && decide (t ≠ "") then
    { s with isInConfig := false }
  else if jsTruthyOpt s.currentBlockName && decide (ind ≤ s.blockIndent)
      && decide (t ≠ "") && !jsStartsWith t "- name:" then
    { s with currentBlockName := none, isInConfig := false }
  else s

/-- The scan state after processing lines 0 through posLine of the document. -/
def hoverScan (lines : List String) (posLine : Nat) : HoverState :=
  (lines.take (posLine + 1)).foldl hoverStep initHoverState

/-- getBlockContextAtPosition: the block name when the position is inside a
block's config section, none otherwise (the source returns an object whose
isInConfig field is always true in the some case). -/
def getBlockContextAtPosition (lines : List String) (posLine : Nat) : Option String :=
  let s := hoverScan lines posLine
  if jsTruthyOpt s.currentBlockName && s.isInConfig then s.currentBlockName else none

/-! ## Version-reference checks (languageServer.ts lines 447-564) -/

/-- Does a character list start with one or more digits, then a dot, then a
digit (the only way the backtracking regex piece for digits-dot-digits can
match a position, since the dot cannot match a digit). -/
def digitsDotDigit (cs : List Char) : Bool :=
  let ds := cs.takeWhile Char.isDigit
  decide (0 < ds.length) &&
    match cs.drop ds.length with
    | '.' :: d :: _ => d.isDigit
    | _ => false

/-- The test of the regex matching a colon followed by a dotted numeric
version anywhere in the string. -/
def testColonVer : List Char → Bool
  | [] => false
  | c :: rest => (decide (c = ':') && digitsDotDigit rest) || testColonVer rest

/-- The test of the regex matching an at-sign, an optional v, and a dotted
numeric version anywhere in the string. -/
def testAtVer : List Char → Bool
  | [] => false
  | c :: rest =>
    (decide (c = '@') &&
      (digitsDotDigit rest ||
        match rest with
        | 'v' :: r2 => digitsDotDigit r2
        | _ => false)) || testAtVer rest

/-- hasVersionTag of the source (lines 488-489 and 547-548): the two regex
disjuncts are subsumed by the includes checks but are kept faithfully. -/
def hasVersionTag (s : String) : Bool :=
  jsIncludes s ":" || jsIncludes s "@" || testColonVer s.data || testAtVer s.data

/-- The .replace of the first ":latest" or "@latest" occurrence by ":1.0.0"
used inside the latest-tag warning message. -/
def replaceLatestGo : List Char → List Char
  | [] => []
  | c :: rest =>
    if lpre ":latest".data (c :: rest) || lpre "@latest".data (c :: rest) then
      ":1.0.0".data ++ (c :: rest).drop 7
    else c :: replaceLatestGo rest

/-- String form of the latest-replacement. -/
def replaceLatest (s : String) : String := ⟨replaceLatestGo s.data⟩

/-- The warning message for a from value carrying a latest tag. -/
def latestMsg (nm s : String) : String :=
  "Block '" ++ nm ++ "' uses 'from: " ++ s ++
    "' with 'latest' tag. Consider using a specific version tag for reproducible builds (e.g., '"
    ++ replaceLatest s ++ "')"

/-- The warning message for a from value with no version tag at all. -/
def noVersionMsg (nm s : String) : String :=
  "Block '" ++ nm ++ "' uses 'from: " ++ s ++
    "' without specifying a version. Consider using a specific version tag (e.g., '"
    ++ s ++ ":1.0.0')"

/-- The per-block body of validateFromFieldsInDocument (lines 468-499): a block
with truthy from and name whose from value is a string gets its range resolved
through findBlockFieldInDocument, then findBlockInDocument, then the zero
range, and yields one latest-tag warning, or one missing-version warning when
no version delimiter is present, or nothing. -/
def checkBlockFrom (lines : List String) (b : JsVal) : List Diagnostic :=
  if jsTruthy (b.get "from") && jsTruthy (b.get "name") then
    match b.get "from" with
    | .vstr s =>
      let nm := jsToDisplay (b.get "name")
      let blockRange :=
        (match findBlockFieldInDocument lines nm "from" with
         | some r => some r
         | none => findBlockInDocument lines nm).getD zeroRange
      if jsIncludes s ":latest" || jsIncludes s "@latest" then
        [⟨blockRange, latestMsg nm s, .warning⟩]
      else if !hasVersionTag s then
        [⟨blockRange, noVersionMsg nm s, .warning⟩]
      else []
    | _ => []
  else []

/-! ## External-effect environment

The yaml library, the polycrate subprocess and the filesystem are external
collaborators (spec section 6); their observable outcomes for the validation
run under study are collected in one record.  Failures that the source
observes as thrown exceptions are Except errors here. -/

/-- One entry of yaml.parseDocument's errors or warnings arrays: an optional
position pair and a message. -/
structure YamlIssue where
  pos : Option (Nat × Nat)
  message : String

/-- The external outcomes one validation run can observe. -/
structure Env where
  /-- require('yaml') succeeds. -/
  yamlAvailable : Bool
  /-- yaml.parse as a function of the parsed text; an error is a thrown
  exception. -/
  yparse : String → Except String JsVal
  /-- yaml.parseDocument on the document: either a thrown exception (the Bool
  records whether its name is YAMLParseError) or the errors and warnings
  arrays. -/
  parseDocOutcome : Except (Bool × String) (List YamlIssue × List YamlIssue)
  /-- isCliAvailable: the polycrate version probe succeeds. -/
  cliAvailable : Bool
  /-- The polycrate workspace snapshot subprocess: spawn error or non-zero
  exit as Except.error, otherwise the stdout text. -/
  cmdSnapshot : Except String String
  /-- fs.existsSync for a file name inside a directory, directories being
  segment lists with the filesystem root as the empty list. -/
  fs : List String → String → Bool

/-! ## Workspace-root discovery (languageServer.ts lines 756-795) -/

/-- isInWorkspaceRoot: one of the three marker files exists in the directory. -/
def isInWorkspaceRoot (fs : List String → String → Bool) (dir : List String) : Bool :=
  [".workspace", "workspace.poly", ".polycrate"].any (fun f => fs dir f)

/-- The walk of findWorkspaceRoot over the reversed segment list: dropping the
head of the reversed list is path.dirname, and the recursion is structural. -/
def findWRGo (fs : List String → String → Bool) : List String → Option (List String)
  | [] => none
  | s :: rest =>
    let d := (s :: rest).reverse
    if fs d "workspace.poly" then some d
    else if isInWorkspaceRoot fs d then some d
    else findWRGo fs rest

/-- findWorkspaceRoot: walk parent directories while the directory differs from
its parent (so the filesystem root, the empty segment list, is never examined),
returning the first directory containing workspace.poly or any marker. -/
def findWorkspaceRoot (fs : List String → String → Bool) (d : List String) :
    Option (List String) :=
  findWRGo fs d.reverse

/-! ## Validation pipeline (languageServer.ts lines 14-564, 631-691) -/

/-- validateYamlSyntax (lines 53-111): nothing without the yaml module; on a
parseDocument exception one error diagnostic only when the exception is a
YAMLParseError; otherwise one diagnostic per reported error and warning with
the positions defaulted to zero. -/
def validateYamlSyntax (env : Env) : List Diagnostic :=
  if !env.yamlAvailable then []
  else
    match env.parseDocOutcome with
    | .error (isParseErr, msg) =>
      if isParseErr then [⟨zeroRange, "YAML syntax error: " ++ msg, .error⟩] else []
    | .ok (errs, warns) =>
      errs.map (fun e =>
        let l := (e.pos.map Prod.fst).getD 0
        let c := (e.pos.map Prod.snd).getD 0
        ⟨⟨l, c, l, c + 10⟩, "YAML syntax error: " ++ e.message, .error⟩)
      ++ warns.map (fun w =>
        let l := (w.pos.map Prod.fst).getD 0
        let c := (w.pos.map Prod.snd).getD 0
        ⟨⟨l, c, l, c + 10⟩, "YAML warning: " ++ w.message, .warning⟩)

/-- getWorkspaceSnapshot (lines 327-351): every failure of the subprocess or
of parsing its output is caught and becomes null, the JavaScript value the
caller's truthiness test rejects. -/
def getWorkspaceSnapshot (env : Env) : JsVal :=
  match env.cmdSnapshot with
  | .error _ => .vnull
  | .ok out =>
    if !env.yamlAvailable then .vnull
    else
      match env.yparse out with
      | .error _ => .vnull
      | .ok v => v

/-- validateFromFieldsInDocument (lines 447-507): parse the document text and
check each block's from field independently; yaml-module absence, a parse
exception, or a document without a blocks array yield nothing. -/
def validateFromFieldsInDocument (env : Env) (content : String) : List Diagnostic :=
  if !env.yamlAvailable then []
  else
    match env.yparse content with
    | .error _ => []
    | .ok doc =>
      if jsTruthy doc && jsTruthy (doc.get "blocks") && jsIsArray (doc.get "blocks") then
        listConcatMap (checkBlockFrom (splitLines content)) (jsArr (doc.get "blocks"))
      else []

/-- validateFromFieldsInBlockDocument (lines 509-564): the same two checks on
the single top-level from field of a block.poly document, ranged at the first
from occurrence. -/
def validateFromFieldsInBlockDocument (env : Env) (content : String) : List Diagnostic :=
  if !env.yamlAvailable then []
  else
    match env.yparse content with
    | .error _ => []
    | .ok doc =>
      if jsTruthy doc && jsTruthy (doc.get "from") then
        match doc.get "from" with
        | .vstr s =>
          let blockName :=
            if jsTruthy (doc.get "name") then jsToDisplay (doc.get "name") else "unnamed"
          let fromRange := (findTextInDocument (splitLines content) "from:").getD zeroRange
          if jsIncludes s ":latest" || jsIncludes s "@latest" then
            [⟨fromRange, latestMsg blockName s, .warning⟩]
          else if !hasVersionTag s then
            [⟨fromRange, noVersionMsg blockName s, .warning⟩]
          else []
        | _ => []
      else []

/-- The diagnostic for a missing required top-level field (lines 157-167). -/
def mkMissingFieldDiag (lines : List String) (f : String) : Diagnostic :=
  ⟨(findTextInDocument lines (f ++ ":")).getD zeroRange,
    "Missing required field: " ++ f, .error⟩

/-- validateWorkspaceSchema (lines 151-212): required identity fields, the
config image shape warning, and per-block name and kind checks. -/
def validateWorkspaceSchema (doc : JsVal) (lines : List String) : List Diagnostic :=
  (["name", "organization"].filter (fun f => !jsTruthy (doc.get f))).map
    (mkMissingFieldDiag lines)
  ++ (if jsTruthy (doc.get "config") &&
        jsTruthy ((doc.get "config").get "image") &&
        decide (jsTypeof ((doc.get "config").get "image") ≠ "object") &&
        decide (jsTypeof ((doc.get "config").get "image") ≠ "string") then
      [⟨(findTextInDocument lines "image:").getD zeroRange,
        "Config field 'image' should be an object or string", .warning⟩]
    else [])
  ++ (if jsTruthy (doc.get "blocks") && jsIsArray (doc.get "blocks") then
      listConcatMap (fun (ib : Nat × JsVal) =>
        let i := ib.1
        let b := ib.2
        (if !jsTruthy (b.get "name") then
          [⟨(findTextInDocument lines "- name:").getD zeroRange,
            "Block at index " ++ toString i ++ " is missing required field: name",
            .error⟩]
        else [])
        ++ (if !jsTruthy (b.get "kind") then
          [⟨((match findBlockFieldInDocument lines (jsToDisplay (b.get "name")) "kind" with
              | some r => some r
              | none => findBlockInDocument lines (jsToDisplay (b.get "name"))).getD
              zeroRange),
            "Block '" ++ (if jsTruthy (b.get "name") then jsToDisplay (b.get "name")
              else "unnamed") ++ "' is missing required field: kind", .error⟩]
        else []))
        (withIdx 0 (jsArr (doc.get "blocks")))
    else [])

/-- The valid block kinds of validateBlockSchema (line 234). -/
def validKinds : List String := ["generic", "k8sapp", "k8scluster", "db", "kv", "mq", "app"]

/-- validateBlockSchema (lines 214-274): required name, the kind enumeration
warning, and per-action name and script-or-playbook checks. -/
def validateBlockSchema (doc : JsVal) (lines : List String) : List Diagnostic :=
  (["name"].filter (fun f => !jsTruthy (doc.get f))).map (mkMissingFieldDiag lines)
  ++ (if jsTruthy (doc.get "kind") &&
        !(validKinds.any (fun k => jsIsString (doc.get "kind") &&
          decide (jsToDisplay (doc.get "kind") = k))) then
      [⟨(findTextInDocument lines "kind:").getD zeroRange,
        "Invalid kind value: " ++ jsToDisplay (doc.get "kind") ++
          ". Valid values: generic, k8sapp, k8scluster, db, kv, mq, app", .warning⟩]
    else [])
  ++ (if jsTruthy (doc.get "actions") && jsIsArray (doc.get "actions") then
      listConcatMap (fun (ia : Nat × JsVal) =>
        let i := ia.1
        let a := ia.2
        (if !jsTruthy (a.get "name") then
          [⟨(findTextInDocument lines "actions:").getD zeroRange,
            "Action at index " ++ toString i ++ " is missing required field: name",
            .error⟩]
        else [])
        ++ (if !jsTruthy (a.get "script") && !jsTruthy (a.get "playbook") then
          [⟨(findTextInDocument lines "actions:").getD zeroRange,
            "Action '" ++ (if jsTruthy (a.get "name") then jsToDisplay (a.get "name")
              else "unnamed") ++ "' should have either 'script' or 'playbook' field",
            .warning⟩]
        else []))
        (withIdx 0 (jsArr (doc.get "actions")))
    else [])

/-- validatePolycrateSchema (lines 113-149): parse the document, dispatch on
workspace versus block shape; yaml-module absence, parse exceptions and falsy
documents yield nothing. -/
def validatePolycrateSchema (env : Env) (fileName content : String) : List Diagnostic :=
  if !env.yamlAvailable then []
  else
    match env.yparse content with
    | .error _ => []
    | .ok doc =>
      if !jsTruthy doc then []
      else
        let lines := splitLines content
        if decide (fileName = "workspace.poly") || !jsIsUndefined (doc.get "blocks") then
          validateWorkspaceSchema doc lines
        else if decide (fileName = "block.poly") || !jsIsUndefined (doc.get "actions") then
          validateBlockSchema doc lines
        else []

/-- The snapshot value whose fields validateWorkspaceSnapshot inspects: the
nested workspace object when truthy, otherwise the snapshot itself (line 384). -/
def wsOf (snapshot : JsVal) : JsVal :=
  if jsTruthy (snapshot.get "workspace") then snapshot.get "workspace" else snapshot

/-- The workspace identity checks of validateWorkspaceSnapshot (lines 386-403),
emitted first. -/
def wsIdentityDiags (workspace : JsVal) (lines : List String) : List Diagnostic :=
  (if !jsTruthy (workspace.get "name") then
    [⟨(findTextInDocument lines "name:").getD zeroRange,
      "Workspace name is missing", .error⟩]
  else [])
  ++ (if !jsTruthy (workspace.get "organization") then
    [⟨(findTextInDocument lines "organization:").getD zeroRange,
      "Workspace organization is missing", .error⟩]
  else [])

/-- The per-snapshot-block checks of validateWorkspaceSnapshot (lines 409-442),
emitted last. -/
def wsSnapshotBlockDiags (workspace : JsVal) (lines : List String) : List Diagnostic :=
  if jsTruthy (workspace.get "blocks") && jsIsArray (workspace.get "blocks") then
    listConcatMap (fun b =>
      (if !jsTruthy (b.get "name") then
        [⟨(findBlockInDocument lines
            (if jsTruthy (b.get "name") then jsToDisplay (b.get "name")
             else "unnamed")).getD zeroRange,
          "Block is missing name", .error⟩]
      else [])
      ++ (if jsTruthy (b.get "actions") && jsIsArray (b.get "actions") then
        listConcatMap (fun a =>
          if !jsTruthy (a.get "name") then
            [⟨(findBlockInDocument lines (jsToDisplay (b.get "name"))).getD zeroRange,
              "Action in block '" ++ jsToDisplay (b.get "name") ++ "' is missing name",
              .error⟩]
          else []) (jsArr (b.get "actions"))
      else []))
      (jsArr (workspace.get "blocks"))
  else []

/-- validateWorkspaceSnapshot (lines 380-445): identity checks against the
snapshot, then the raw-text from-field checks on the original document, then
per-snapshot-block checks. -/
def validateWorkspaceSnapshot (env : Env) (content : String) (snapshot : JsVal) :
    List Diagnostic :=
  wsIdentityDiags (wsOf snapshot) (splitLines content)
  ++ (validateFromFieldsInDocument env content
      ++ wsSnapshotBlockDiags (wsOf snapshot) (splitLines content))

/-- validateBlockInWorkspaceSnapshot (lines 631-691): look the block up by
strict name equality in the snapshot; warn when absent, otherwise check name
and actions. -/
def validateBlockInWorkspaceSnapshot (snapshot : JsVal)
    (blockName : String) (content : String) : List Diagnostic :=
  let workspace := if jsTruthy (snapshot.get "workspace") then snapshot.get "workspace"
    else snapshot
  let lines := splitLines content
  if jsTruthy (workspace.get "blocks") && jsIsArray (workspace.get "blocks") then
    match (jsArr (workspace.get "blocks")).find?
        (fun b => jsEqStr (b.get "name") blockName) with
    | none =>
      [⟨(findBlockInDocument lines blockName).getD zeroRange,
        "Block '" ++ blockName ++ "' is not recognized by the workspace", .warning⟩]
    | some b =>
      (if !jsTruthy (b.get "name") then
        [⟨(findBlockInDocument lines blockName).getD zeroRange,
          "Block is missing name", .error⟩]
      else [])
      ++ (if jsTruthy (b.get "actions") && jsIsArray (b.get "actions") then
        listConcatMap (fun a =>
          if !jsTruthy (a.get "name") then
            [⟨(findBlockInDocument lines (jsToDisplay (b.get "name"))).getD zeroRange,
              "Action in block '" ++ jsToDisplay (b.get "name") ++ "' is missing name",
              .error⟩]
          else []) (jsArr (b.get "actions"))
      else [])
  else []

/-- path.basename of the directory holding a block.poly file (the block name);
the filesystem root displays as a slash. -/
def dirBasename (fileDir : List String) : String := fileDir.getLast?.getD "/"

/-- validateWithCli (lines 276-325): resolve the workspace root for .poly
files (returning nothing when absent), fetch the snapshot, and validate the
block or workspace against it; a falsy snapshot yields nothing. -/
def validateWithCli (env : Env) (fileName : String) (fileDir : List String)
    (content : String) : List Diagnostic :=
  match (if decide (fileName = "block.poly") || decide (fileName = "workspace.poly") then
      findWorkspaceRoot env.fs fileDir
    else some fileDir) with
  | none => []
  | some _ =>
    if decide (fileName = "workspace.poly") || decide (fileName = "block.poly")
        || decide (fileName = ".workspace") then
      let snapshot := getWorkspaceSnapshot env
      if jsTruthy snapshot then
        if fileName = "block.poly" then
          validateBlockInWorkspaceSnapshot snapshot (dirBasename fileDir) content
            ++ validateFromFieldsInBlockDocument env content
        else validateWorkspaceSnapshot env content snapshot
      else []
    else []

/-- Is the file one of the recognized polycrate file names (line 33). -/
def isPolycrateFile (fileName : String) : Bool :=
  decide (fileName = "workspace.poly") || decide (fileName = "block.poly")
    || decide (fileName = ".workspace")

/-- validateFile (lines 14-51): yaml syntax diagnostics, then either the
CLI-based validation (for polycrate files with the CLI available) or the
basic schema fallback.  Every sub-step catches its own failures, so the
function always returns its accumulated diagnostic list. -/
def validateFile (env : Env) (fileName : String) (fileDir : List String)
    (content : String) : List Diagnostic :=
  validateYamlSyntax env
  ++ (if isPolycrateFile fileName && env.cliAvailable then
      validateWithCli env fileName fileDir content
    else validatePolycrateSchema env fileName content)

/-! ## Analysis vocabulary

Definitions used only to state properties about the embedded functions. -/

/-- The line of a document at an index, empty when out of range. -/
def lineAt (lines : List String) (i : Nat) : String := (lines.get? i).getD ""

/-- The indentation of a document line as the Int the scan state stores. -/
def indAt (lines : List String) (k : Nat) : Int := (jsIndent (lineAt lines k) : Int)

/-- Line k is a sequence-item identity marker. -/
def nameLineAt (lines : List String) (k : Nat) : Prop :=
  jsStartsWith (jsTrim (lineAt lines k)) "- name:" = true

/-- Line j is a marker line that findBlockFieldInDocument accepts as opening
the target block: it is a "- name:" line containing the block name. -/
def opensBlockAt (lines : List String) (bn : String) (j : Nat) : Prop :=
  nameLineAt lines j ∧ jsIncludes (jsTrim (lineAt lines j)) bn = true

/-- The predicate counting the error diagnostic for one missing required
field. -/
def pMissing (f : String) (d : Diagnostic) : Bool :=
  decide (d.message = "Missing required field: " ++ f) && decide (d.severity = .error)

/-- Is a list of line numbers weakly increasing (document order). -/
def sortedByLine : List Nat → Bool
  | [] => true
  | [_] => true
  | a :: b :: t => decide (a ≤ b) && sortedByLine (b :: t)

/-- Does a directory carry any of the workspace root markers checked by the
walk (either branch of the loop body of findWorkspaceRoot). -/
def hasRootMarker (fs : List String → String → Bool) (d : List String) : Bool :=
  fs d "workspace.poly" || isInWorkspaceRoot fs d

/-- The visited chain over the reversed segment list, mirroring findWRGo. -/
def ancestorsGo : List String → List (List String)
  | [] => []
  | s :: rest => (s :: rest).reverse :: ancestorsGo rest

/-- The chain of directories the walk of findWorkspaceRoot can visit: the
start directory and every ancestor strictly below the filesystem root (the
loop of the source stops once the directory equals its parent, so the root,
the empty segment list, is absent). -/
def ancestorsOf (d : List String) : List (List String) := ancestorsGo d.reverse

/-! ## Concrete documents and environments used by the settled claims -/

/-- The three-entity document of the claim scenario: only beta carries an
unpinned version marker. -/
def d3content : String :=
  "blocks:\n  - name: alpha\n    from: registry/x:1.0.0\n  - name: beta\n    from: registry/y:latest\n  - name: gamma\n    from: registry/z:2.0.0"

/-- The first block of the three-entity document as yaml.parse yields it. -/
def d3block1 : JsVal := jobj [("name", .vstr "alpha"), ("from", .vstr "registry/x:1.0.0")]

/-- The second block of the three-entity document. -/
def d3block2 : JsVal := jobj [("name", .vstr "beta"), ("from", .vstr "registry/y:latest")]

/-- The third block of the three-entity document. -/
def d3block3 : JsVal := jobj [("name", .vstr "gamma"), ("from", .vstr "registry/z:2.0.0")]

/-- The parse of the three-entity document. -/
def d3doc : JsVal := jobj [("blocks", jarr [d3block1, d3block2, d3block3])]

/-- Environment for the three-entity scenario: yaml present, parsing yields
the document above. -/
def envC1 : Env :=
  ⟨true, fun _ => .ok d3doc, .ok ([], []), true, .ok "", fun _ _ => false⟩

/-- A document whose second block's name alp is a substring of the first
block's name alpha; both from values carry the latest tag. -/
def cxContent : String :=
  "blocks:\n  - name: alpha\n    from: registry/x:latest\n  - name: alp\n    from: registry/y:latest"

/-- The parse of the substring-name document. -/
def cxDoc : JsVal := jobj [("blocks", jarr [
  jobj [("name", .vstr "alpha"), ("from", .vstr "registry/x:latest")],
  jobj [("name", .vstr "alp"), ("from", .vstr "registry/y:latest")]])]

/-- Environment parsing the substring-name document. -/
def envCx : Env :=
  ⟨true, fun _ => .ok cxDoc, .ok ([], []), true, .ok "", fun _ _ => false⟩

/-- Environment for the snapshot-failure runs on the substring-name document:
the CLI is available but the snapshot subprocess fails. -/
def envC3 : Env :=
  ⟨true, fun _ => .ok cxDoc, .ok ([], []), true, .error "spawn ENOENT",
    fun d f => decide (d = ["w"]) && decide (f = "workspace.poly")⟩

/-- Environment with a working snapshot subprocess for the three-entity
document: the snapshot parses to a truthy workspace. -/
def envC3b : Env :=
  ⟨true,
    fun str => if str = d3content then .ok d3doc
      else .ok (jobj [("workspace", jobj [("name", .vstr "w"),
        ("organization", .vstr "o"), ("blocks", jarr [])])]),
    .ok ([], []), true, .ok "snapshot-yaml",
    fun d f => decide (d = ["w"]) && decide (f = "workspace.poly")⟩

/-- A workspace document lacking the organization field. -/
def c4content : String := "name: w\n"

/-- Its parse. -/
def c4doc : JsVal := jobj [("name", .vstr "w")]

/-- Environment with the CLI unavailable (fallback path). -/
def envC4 : Env :=
  ⟨true, fun _ => .ok c4doc, .ok ([], []), false, .error "not found", fun _ _ => false⟩

/-- Environment with the CLI available but the snapshot call failing. -/
def envC4b : Env :=
  ⟨true, fun _ => .ok c4doc, .ok ([], []), true, .error "exit 1",
    fun d f => decide (d = ["w"]) && decide (f = "workspace.poly")⟩

/-- Environment whose snapshot subprocess fails outright. -/
def envC5 : Env :=
  ⟨true, fun _ => .ok c4doc, .ok ([], []), true, .error "spawn ENOENT",
    fun _ _ => false⟩

/-- Document placing an offending block before the organization line. -/
def c9content : String := "blocks:\n  - name: a\n    from: x:latest\norganization: o"

/-- Its parse. -/
def c9doc : JsVal := jobj [("blocks", jarr [jobj [("name", .vstr "a"),
  ("from", .vstr "x:latest")]])]

/-- Environment parsing that document. -/
def envC9 : Env :=
  ⟨true, fun _ => .ok c9doc, .ok ([], []), true, .ok "s", fun _ _ => false⟩

/-- A snapshot whose workspace lacks organization but has a name and an empty
block list. -/
def c9snap : JsVal := jobj [("workspace", jobj [("name", .vstr "w"),
  ("blocks", jarr [])])]

/-- A snapshot whose workspace lacks the name field. -/
def c9snapNoName : JsVal := jobj [("workspace", jobj [("organization", .vstr "o"),
  ("blocks", jarr [])])]

/-- The scope-tracker counterexample document: the dedented line foo closes
only the config frame, leaving alpha's block frame open. -/
def exC6 : List String :=
  ["- name: alpha", "  config:", "    x: 1", "foo: 1", "  config:", "    z: 2"]

/-- A scan state inside the config section of a block at indent 0. -/
def exC6state : HoverState := ⟨some "a", true, 0, 2⟩

/-- Document for the scope-stack witness. -/
def exC7 : List String := ["- name: a", "  config:", "    x: 1"]

/-- The field-resolution counterexample document: alpha has no version field,
and the scan leaks into the unrelated top-level config mapping. -/
def exC2 : List String :=
  ["blocks:", "  - name: alpha", "    kind: generic", "config:", "  version: 2"]

/-- A filesystem whose only root marker sits in the filesystem root itself. -/
def fsRootMarker : List String → String → Bool :=
  fun d f => d.isEmpty && decide (f = "workspace.poly")

/-- A filesystem with a workspace.poly marker in directory a. -/
def fsMarkerAtA : List String → String → Bool :=
  fun d f => decide (d = ["a"]) && decide (f = "workspace.poly")

/-- The scan-state invariant of the scope tracker: an open config frame sits
strictly deeper than its enclosing block frame, which sits at a real line
indent. -/
def hoverInv (s : HoverState) : Prop :=
  (jsTruthyOpt s.currentBlockName = true → 0 ≤ s.blockIndent)
  ∧ (s.isInConfig = true →
      jsTruthyOpt s.currentBlockName = true ∧ s.blockIndent < s.configIndent)

/-! ## Helper lemmas -/

theorem strDataAppend (s t : String) : (s ++ t).data = s.data ++ t.data := by
  cases s; cases t; rfl

theorem headCharAppend (a b : String) (c : Char) (h : a.data.head? = some c) :
    (a ++ b).data.head? = some c := by
  rw [strDataAppend]
  cases hd : a.data with
  | nil => rw [hd] at h; cases h
  | cons x t => rw [hd] at h; simpa using h

theorem ne_of_headChar (m1 m2 : String) (c1 c2 : Char)
    (h1 : m1.data.head? = some c1) (h2 : m2.data.head? = some c2)
    (hne : c1 ≠ c2) : m1 ≠ m2 := by
  intro he
  subst he
  rw [h1] at h2
  exact hne (Option.some.inj h2)

theorem strAppend_left_cancel {a x y : String} (h : a ++ x = a ++ y) : x = y := by
  cases x with
  | mk xd =>
    cases y with
    | mk yd =>
      have hd : a.data ++ xd = a.data ++ yd := by
        have h2 := congrArg String.data h
        rwa [strDataAppend, strDataAppend] at h2
      rw [List.append_cancel_left hd]

theorem countIf_append (p : Diagnostic → Bool) (l1 l2 : List Diagnostic) :
    countIf p (l1 ++ l2) = countIf p l1 + countIf p l2 := by
  induction l1 with
  | nil => simp [countIf]
  | cons d t ih => simp [countIf, ih]; omega

theorem countIf_eq_zero (p : Diagnostic → Bool) (l : List Diagnostic)
    (h : ∀ d ∈ l, p d = false) : countIf p l = 0 := by
  induction l with
  | nil => rfl
  | cons d t ih =>
    have hd := h d (by simp)
    have ht := ih (fun x hx => h x (by simp [hx]))
    simp [countIf, hd, ht]

theorem mem_listConcatMap {α β : Type} {f : α → List β} {l : List α} {b : β} :
    b ∈ listConcatMap f l ↔ ∃ a ∈ l, b ∈ f a := by
  induction l with
  | nil => simp [listConcatMap]
  | cons x t ih =>
    simp only [listConcatMap, List.mem_append, ih, List.mem_cons]
    constructor
    · rintro (hb | ⟨a, ha, hb⟩)
      · exact ⟨x, Or.inl rfl, hb⟩
      · exact ⟨a, Or.inr ha, hb⟩
    · rintro ⟨a, (rfl | ha), hb⟩
      · exact Or.inl hb
      · exact Or.inr ⟨a, ha, hb⟩

/-! ## Claim C10 -/

/-- Claim C10: for every block, the raw-text version-reference check emits at
most one Warning; the latest-tag Warning and the missing-version Warning are
mutually exclusive (all emitted diagnostics carry the latest message when the
value has a latest marker, and the missing-version message otherwise); and a
block lacking a truthy name, lacking a truthy from, or whose from value is not
a string, yields no diagnostic at all. -/
theorem c10_at_most_one (lines : List String) (b : JsVal) :
    (checkBlockFrom lines b).length ≤ 1
    ∧ (jsTruthy (b.get "name") = false → checkBlockFrom lines b = [])
    ∧ (jsTruthy (b.get "from") = false → checkBlockFrom lines b = [])
    ∧ (jsIsString (b.get "from") = false → checkBlockFrom lines b = [])
    ∧ (∀ s, b.get "from" = .vstr s →
        ((jsIncludes s ":latest" || jsIncludes s "@latest") = true →
          ∀ d ∈ checkBlockFrom lines b,
            d.message = latestMsg (jsToDisplay (b.get "name")) s
              ∧ d.severity = .warning)
        ∧ ((jsIncludes s ":latest" || jsIncludes s "@latest") = false →
          ∀ d ∈ checkBlockFrom lines b,
            d.message = noVersionMsg (jsToDisplay (b.get "name")) s
              ∧ d.severity = .warning)) := by
  refine ⟨?_, ?_, ?_, ?_, ?_⟩
  · cases hv : b.get "from" <;> simp only [checkBlockFrom, hv] <;>
      split <;> (try split) <;> (try split) <;> simp
  · intro hname
    simp [checkBlockFrom, hname]
  · intro hfrom
    simp [checkBlockFrom, hfrom]
  · intro hstr
    cases hv : b.get "from" <;> simp only [checkBlockFrom, hv]
    case vstr s => rw [hv] at hstr; simp [jsIsString] at hstr
    all_goals split <;> rfl
  · intro s hv
    constructor
    · intro hlatest d hd
      simp only [checkBlockFrom, hv, hlatest] at hd
      split at hd
      · rw [if_pos (by simp)] at hd
        rw [List.mem_singleton] at hd
        subst hd
        exact ⟨rfl, rfl⟩
      · simp at hd
    · intro hlatest d hd
      simp only [checkBlockFrom, hv, hlatest] at hd
      split at hd
      · rw [if_neg (by simp)] at hd
        split at hd
        · rw [List.mem_singleton] at hd
          subst hd
          exact ⟨rfl, rfl⟩
        · simp at hd
      · simp at hd

/-- Witness for C10 at a concrete latest-tagged block. -/
theorem c10_at_most_one_witness :
    (checkBlockFrom (splitLines d3content) d3block2).length ≤ 1
    ∧ checkBlockFrom (splitLines d3content) (jobj [("from", JsVal.vstr "x")]) = [] :=
  ⟨(c10_at_most_one (splitLines d3content) d3block2).1,
    (c10_at_most_one (splitLines d3content)
      (jobj [("from", JsVal.vstr "x")])).2.1 (by decide)⟩

/-! ## Claim C7 -/

theorem hoverStep_inv (s : HoverState) (line : String) (h : hoverInv s) :
    hoverInv (hoverStep s line) := by
  simp only [hoverStep]
  split
  · split
    · exact ⟨fun _ => Int.ofNat_nonneg _, by simp⟩
    · exact h
  · split
    · rename_i hcond
      simp only [Bool.and_eq_true, decide_eq_true_eq] at hcond
      exact ⟨h.1, fun _ => ⟨hcond.1.1, hcond.2⟩⟩
    · split
      · exact ⟨h.1, by simp⟩
      · split
        · exact ⟨by simp [jsTruthyOpt], by simp⟩
        · exact h

theorem foldl_hoverInv (ls : List String) (s : HoverState) (h : hoverInv s) :
    hoverInv (ls.foldl hoverStep s) := by
  induction ls generalizing s with
  | nil => exact h
  | cons a t ih => exact ih _ (hoverStep_inv _ _ h)

/-- Claim C7: stack consistency of the scope tracker: whenever the scan state
at a line has an open config frame, the frame indents are strictly increasing
from the root (the block frame sits at a non-negative indent, strictly below
the config frame's indent). -/
theorem c7_stack_consistency (lines : List String) (posLine : Nat)
    (h : (hoverScan lines posLine).isInConfig = true) :
    0 ≤ (hoverScan lines posLine).blockIndent
    ∧ (hoverScan lines posLine).blockIndent < (hoverScan lines posLine).configIndent := by
  have hi : hoverInv (hoverScan lines posLine) :=
    foldl_hoverInv _ _ (by exact ⟨by simp [initHoverState, jsTruthyOpt], by simp [initHoverState]⟩)
  obtain ⟨htr, hlt⟩ := hi.2 h
  exact ⟨hi.1 htr, hlt⟩

/-- Witness for C7 on a document whose third line sits inside a config frame. -/
theorem c7_stack_consistency_witness :
    (hoverScan exC7 2).isInConfig = true
    ∧ (0 ≤ (hoverScan exC7 2).blockIndent
        ∧ (hoverScan exC7 2).blockIndent < (hoverScan exC7 2).configIndent) :=
  ⟨by decide, c7_stack_consistency exC7 2 (by decide)⟩

/-! ## Claim C6 -/

/-- Counterexample for C6: in the scan of exC6, line 3 is a non-blank line
that is not a sequence-item marker and whose indent is at most the open block
frame's indentColumn, yet after processing it the block frame is still open
(only the config frame closed), and the block even re-enters a config section
afterwards. -/
theorem c6_close_cex :
    jsTrim (lineAt exC6 3) ≠ ""
    ∧ jsStartsWith (jsTrim (lineAt exC6 3)) "- name:" = false
    ∧ (hoverScan exC6 2).currentBlockName = some "alpha"
    ∧ (hoverScan exC6 2).isInConfig = true
    ∧ indAt exC6 3 ≤ (hoverScan exC6 2).blockIndent
    ∧ (hoverScan exC6 3).currentBlockName = some "alpha"
    ∧ getBlockContextAtPosition exC6 5 = some "alpha" := by
  decide

/-- Claim C6 as amended: blank lines never change the scan state; a line whose
trimmed text starts with the sequence-item marker either replaces the block
frame (when it carries a name) or leaves every frame open (when it does not);
and a qualifying dedented line closes exactly one frame: the config frame when
one is open (the block frame then stays open on that line), else the block
frame. -/
theorem c6_close_rules_amended (s : HoverState) (line : String) :
    (jsTrim line = "" → hoverStep s line = s)
    ∧ (jsStartsWith (jsTrim line) "- name:" = true →
        nameCapture (jsTrim line) = none → hoverStep s line = s)
    ∧ (∀ nm, jsStartsWith (jsTrim line) "- name:" = true →
        nameCapture (jsTrim line) = some nm →
        hoverStep s line = ⟨some nm, false, (jsIndent line : Int), -1⟩)
    ∧ (jsTrim line ≠ "" → jsStartsWith (jsTrim line) "- name:" = false →
        jsTrim line ≠ "config:" → s.isInConfig = true →
        (jsIndent line : Int) ≤ s.configIndent →
        hoverStep s line = { s with isInConfig := false })
    ∧ (jsTrim line ≠ "" → jsStartsWith (jsTrim line) "- name:" = false →
        jsTrim line ≠ "config:" → s.isInConfig = false →
        jsTruthyOpt s.currentBlockName = true →
        (jsIndent line : Int) ≤ s.blockIndent →
        hoverStep s line = { s with currentBlockName := none, isInConfig := false }) := by
  refine ⟨?_, ?_, ?_, ?_, ?_⟩
  · intro hb
    have hsw : jsStartsWith "" "- name:" = false := by decide
    simp [hoverStep, hb, hsw]
  · intro hsw hcap
    simp [hoverStep, hsw, hcap]
  · intro nm hsw hcap
    simp [hoverStep, hsw, hcap]
  · intro hnb hsw hcfg hic hle
    simp [hoverStep, hsw, hic, hle, hnb, hcfg]
  · intro hnb hsw hcfg hic htr hle
    simp [hoverStep, hsw, hic, htr, hle, hnb, hcfg]

/-- Witness for C6 as amended, at a concrete in-config state and lines. -/
theorem c6_close_rules_witness :
    hoverStep exC6state "x: 1" = { exC6state with isInConfig := false }
    ∧ hoverStep exC6state "   " = exC6state :=
  ⟨(c6_close_rules_amended exC6state "x: 1").2.2.2.1 (by decide) (by decide)
      (by decide) (by decide) (by decide),
    (c6_close_rules_amended exC6state "   ").1 (by decide)⟩

/-! ## Claim C9 -/

/-- Counterexample for C9: on a document whose offending block precedes the
organization line, the snapshot validation emits the organization anomaly
(line 3) before the from-field warning (line 2), so the output is not in
document order. -/
theorem c9_order_cex :
    (validateWorkspaceSnapshot envC9 c9content c9snap).map (fun d => d.range.startLine)
      = [3, 2]
    ∧ sortedByLine ((validateWorkspaceSnapshot envC9 c9content c9snap).map
        (fun d => d.range.startLine)) = false := by
  constructor
  · decide
  · decide

/-- Claim C9 as amended: the snapshot reconciliation emits anomalies in fixed
rule order, not sorted by line: the workspace identity anomalies always come
first (here, whenever the snapshot workspace lacks a name, the very first
emitted diagnostic is that anomaly, wherever its resolved range lies), then
the raw-text from-field warnings in parsed-block order, then the snapshot
block checks. -/
theorem c9_rule_order_amended (env : Env) (content : String) (snapshot : JsVal)
    (h : jsTruthy ((wsOf snapshot).get "name") = false) :
    validateWorkspaceSnapshot env content snapshot
      = wsIdentityDiags (wsOf snapshot) (splitLines content)
        ++ (validateFromFieldsInDocument env content
            ++ wsSnapshotBlockDiags (wsOf snapshot) (splitLines content))
    ∧ (validateWorkspaceSnapshot env content snapshot).head? =
        some ⟨(findTextInDocument (splitLines content) "name:").getD zeroRange,
          "Workspace name is missing", Severity.error⟩ := by
  refine ⟨rfl, ?_⟩
  simp [validateWorkspaceSnapshot, wsIdentityDiags, h]

/-- Witness for C9 as amended at a snapshot lacking the workspace name. -/
theorem c9_rule_order_witness :
    (validateWorkspaceSnapshot envC9 c9content c9snapNoName).head? =
      some ⟨(findTextInDocument (splitLines c9content) "name:").getD zeroRange,
        "Workspace name is missing", Severity.error⟩ :=
  (c9_rule_order_amended envC9 c9content c9snapNoName (by decide)).2

/-! ## Claim C8 -/

/-- Counterexample for C8: with the marker only in the filesystem root, the
walk returns none even though an ancestor directory (the root) contains the
marker, because the loop stops before examining the root. -/
theorem c8_root_cex :
    isInWorkspaceRoot fsRootMarker [] = true
    ∧ findWorkspaceRoot fsRootMarker ["a"] = none := by
  constructor
  · decide
  · decide

theorem ancestorsGo_mem_length {rev p : List String}
    (hp : p ∈ ancestorsGo rev) : p.length ≤ rev.length := by
  induction rev with
  | nil => simp [ancestorsGo] at hp
  | cons s rest ih =>
    simp only [ancestorsGo, List.mem_cons] at hp
    rcases hp with rfl | hp2
    · simp
    · exact le_trans (ih hp2) (by simp)

theorem findWRGo_spec (fs : List String → String → Bool) (rev : List String) :
    (findWRGo fs rev = none ↔ ∀ p ∈ ancestorsGo rev, hasRootMarker fs p = false)
    ∧ (∀ r, findWRGo fs rev = some r →
        hasRootMarker fs r = true ∧ r ∈ ancestorsGo rev
        ∧ ∀ p ∈ ancestorsGo rev, p.length > r.length → hasRootMarker fs p = false) := by
  induction rev with
  | nil =>
    constructor
    · simp [findWRGo, ancestorsGo]
    · intro r hr
      simp [findWRGo] at hr
  | cons s rest ih =>
    have hanc : ancestorsGo (s :: rest) = (rest.reverse ++ [s]) :: ancestorsGo rest := by
      rw [ancestorsGo, List.reverse_cons]
    by_cases hm : hasRootMarker fs (rest.reverse ++ [s]) = true
    · have he : findWRGo fs (s :: rest) = some (rest.reverse ++ [s]) := by
        rw [findWRGo, List.reverse_cons]
        by_cases h1 : fs (rest.reverse ++ [s]) "workspace.poly" = true
        · rw [if_pos h1]
        · have h2 : isInWorkspaceRoot fs (rest.reverse ++ [s]) = true := by
            rcases Bool.or_eq_true_iff.mp (by simpa [hasRootMarker] using hm) with h | h
            · exact absurd h h1
            · exact h
          rw [if_neg h1, if_pos h2]
      constructor
      · rw [he, hanc]
        constructor
        · intro h
          cases h
        · intro hall
          have hx := hall (rest.reverse ++ [s]) (List.mem_cons_self _ _)
          rw [hx] at hm
          cases hm
      · intro r hr
        rw [he] at hr
        have hrd := Option.some.inj hr
        subst hrd
        rw [hanc]
        refine ⟨hm, List.mem_cons_self _ _, ?_⟩
        intro p hp hlen
        rcases List.mem_cons.mp hp with rfl | hp2
        · exact absurd hlen (lt_irrefl _)
        · have hle := ancestorsGo_mem_length hp2
          simp only [List.length_append, List.length_reverse, List.length_singleton] at hlen
          omega
    · have hmf : hasRootMarker fs (rest.reverse ++ [s]) = false :=
        Bool.eq_false_iff.mpr hm
      obtain ⟨h1, h2⟩ : fs (rest.reverse ++ [s]) "workspace.poly" = false
          ∧ isInWorkspaceRoot fs (rest.reverse ++ [s]) = false :=
        Bool.or_eq_false_iff.mp (by simpa [hasRootMarker] using hmf)
      have he : findWRGo fs (s :: rest) = findWRGo fs rest := by
        rw [findWRGo, List.reverse_cons]
        rw [if_neg (by simp [h1]), if_neg (by simp [h2])]
      constructor
      · rw [he, hanc]
        constructor
        · intro hnone p hp
          rcases List.mem_cons.mp hp with rfl | hp2
          · exact hmf
          · exact ih.1.mp hnone p hp2
        · intro hall
          exact ih.1.mpr (fun p hp => hall p (List.mem_cons_of_mem _ hp))
      · intro r hr
        rw [he] at hr
        obtain ⟨hmark, hmem, hmax⟩ := ih.2 r hr
        rw [hanc]
        refine ⟨hmark, List.mem_cons_of_mem _ hmem, ?_⟩
        intro p hp hlen
        rcases List.mem_cons.mp hp with rfl | hp2
        · exact hmf
        · exact hmax p hp2 hlen

/-- Claim C8 as amended: the walk inspects exactly the chain of ancestors
strictly below the filesystem root (start directory included, root excluded):
it returns none exactly when no directory of that chain carries a marker, and
any returned directory carries a marker, lies on that chain, and is the
deepest marked directory of the chain.  A marker sitting in the filesystem
root itself is never found. -/
theorem c8_root_discovery_amended (fs : List String → String → Bool) (d : List String) :
    (findWorkspaceRoot fs d = none ↔ ∀ p ∈ ancestorsOf d, hasRootMarker fs p = false)
    ∧ (∀ r, findWorkspaceRoot fs d = some r →
        hasRootMarker fs r = true ∧ r ∈ ancestorsOf d
        ∧ ∀ p ∈ ancestorsOf d, p.length > r.length → hasRootMarker fs p = false) :=
  findWRGo_spec fs d.reverse

/-- Witness for C8 as amended: a marker in directory a is found from a/b. -/
theorem c8_root_discovery_witness :
    hasRootMarker fsMarkerAtA ["a"] = true
    ∧ ["a"] ∈ ancestorsOf ["a", "b"]
    ∧ ∀ p ∈ ancestorsOf ["a", "b"], p.length > (["a"] : List String).length →
        hasRootMarker fsMarkerAtA p = false :=
  (c8_root_discovery_amended fsMarkerAtA ["a", "b"]).2 ["a"] (by decide)

/-! ## Claim C5 -/

theorem validateWithCli_of_no_snapshot (env : Env) (fileName : String)
    (fileDir : List String) (content : String)
    (h : jsTruthy (getWorkspaceSnapshot env) = false) :
    validateWithCli env fileName fileDir content = [] := by
  rw [validateWithCli]
  split
  · rfl
  · split
    · simp [h]
    · rfl

/-- Claim C5: every failure mode of the external snapshot call, namely a
missing binary or non-zero exit (a subprocess error), a missing yaml module,
malformed output (a parse exception) and empty output (parsed to null), makes
the snapshot accessor yield the null value the callers treat as no snapshot;
and with no snapshot available the top-level validation still returns its
diagnostic list, assembled from the yaml-syntax and fallback rule sets alone
(no failure escapes to the caller: every catch handler of the source is a
total branch of the embedding). -/
theorem c5_failure_modes (env : Env) (fileName : String) (fileDir : List String)
    (content : String) :
    ((∃ e, env.cmdSnapshot = .error e) → getWorkspaceSnapshot env = .vnull)
    ∧ (env.yamlAvailable = false → getWorkspaceSnapshot env = .vnull)
    ∧ (∀ out m, env.cmdSnapshot = .ok out → env.yparse out = .error m →
        getWorkspaceSnapshot env = .vnull)
    ∧ (env.cmdSnapshot = .ok "" → env.yparse "" = .ok .vnull →
        getWorkspaceSnapshot env = .vnull)
    ∧ (jsTruthy (getWorkspaceSnapshot env) = false →
        validateFile env fileName fileDir content
          = validateYamlSyntax env
            ++ (if isPolycrateFile fileName && env.cliAvailable then []
                else validatePolycrateSchema env fileName content)) := by
  refine ⟨?_, ?_, ?_, ?_, ?_⟩
  · rintro ⟨e, he⟩
    simp [getWorkspaceSnapshot, he]
  · intro hy
    rw [getWorkspaceSnapshot]
    cases env.cmdSnapshot with
    | error e => rfl
    | ok out => simp [hy]
  · intro out m hc hp
    by_cases hy : env.yamlAvailable = true
    · simp [getWorkspaceSnapshot, hc, hy, hp]
    · simp [getWorkspaceSnapshot, hc, Bool.eq_false_iff.mpr hy]
  · intro hc hp
    by_cases hy : env.yamlAvailable = true
    · simp [getWorkspaceSnapshot, hc, hy, hp]
    · simp [getWorkspaceSnapshot, hc, Bool.eq_false_iff.mpr hy]
  · intro h
    rw [validateFile]
    by_cases hb : (isPolycrateFile fileName && env.cliAvailable) = true
    · rw [if_pos hb, if_pos hb, validateWithCli_of_no_snapshot env fileName fileDir content h]
    · rw [if_neg hb, if_neg hb]

/-- Witness for C5 at an environment whose snapshot subprocess fails. -/
theorem c5_failure_modes_witness :
    getWorkspaceSnapshot envC5 = JsVal.vnull
    ∧ validateFile envC5 "workspace.poly" ["w"] c4content
      = validateYamlSyntax envC5
        ++ (if isPolycrateFile "workspace.poly" && envC5.cliAvailable then []
            else validatePolycrateSchema envC5 "workspace.poly" c4content) :=
  ⟨(c5_failure_modes envC5 "workspace.poly" ["w"] c4content).1 ⟨"spawn ENOENT", rfl⟩,
    (c5_failure_modes envC5 "workspace.poly" ["w"] c4content).2.2.2.2 (by decide)⟩

/-! ## Claim C3 -/

/-- Counterexample for C3: with the CLI available but the snapshot call
failing, the whole validation of a workspace document containing latest-tagged
from values yields no diagnostics at all, even though the raw-text rule fires
on that document; the raw-text warnings are therefore not produced
independently of snapshot availability. -/
theorem c3_rawtext_cex :
    validateFile envC3 "workspace.poly" ["w"] cxContent = []
    ∧ validateFromFieldsInDocument envC3 cxContent ≠ [] := by
  constructor
  · decide
  · decide

/-- Claim C3 as amended: the raw-text from-field rules run only inside the
snapshot-validation path: when no snapshot is available the CLI validation
contributes nothing (so no latest or missing-version warning is produced
through it), and when a snapshot is available the workspace validation
contains the raw-text from-field diagnostics of the original document as a
contiguous segment. -/
theorem c3_rawtext_amended (env : Env) (fileName : String) (fileDir : List String)
    (content : String) :
    (jsTruthy (getWorkspaceSnapshot env) = false →
      validateWithCli env fileName fileDir content = [])
    ∧ (∀ w, findWorkspaceRoot env.fs fileDir = some w →
        jsTruthy (getWorkspaceSnapshot env) = true →
        ∃ pre post, validateWithCli env "workspace.poly" fileDir content
          = pre ++ (validateFromFieldsInDocument env content ++ post)) := by
  constructor
  · exact validateWithCli_of_no_snapshot env fileName fileDir content
  · intro w hw hs
    have he : validateWithCli env "workspace.poly" fileDir content
        = validateWorkspaceSnapshot env content (getWorkspaceSnapshot env) := by
      rw [validateWithCli]
      simp [hw, hs]
    exact ⟨wsIdentityDiags (wsOf (getWorkspaceSnapshot env)) (splitLines content),
      wsSnapshotBlockDiags (wsOf (getWorkspaceSnapshot env)) (splitLines content), he⟩

/-- Witness for C3 as amended at an environment with a working snapshot. -/
theorem c3_rawtext_witness :
    ∃ pre post, validateWithCli envC3b "workspace.poly" ["w"] d3content
      = pre ++ (validateFromFieldsInDocument envC3b d3content ++ post) :=
  (c3_rawtext_amended envC3b "workspace.poly" ["w"] d3content).2 ["w"]
    (by decide) (by decide)

/-! ## Claim C4 -/

theorem pMissing_false_of_head (f : String) (d : Diagnostic) (c : Char)
    (hc : d.message.data.head? = some c) (hne : c ≠ 'M') : pMissing f d = false := by
  have hM : ("Missing required field: " ++ f).data.head? = some 'M' :=
    headCharAppend _ _ _ (by decide)
  have hne2 : d.message ≠ "Missing required field: " ++ f :=
    ne_of_headChar _ _ c 'M' hc hM hne
  simp [pMissing, hne2]

theorem validateYamlSyntax_count (env : Env) (f : String) :
    countIf (pMissing f) (validateYamlSyntax env) = 0 := by
  apply countIf_eq_zero
  intro d hd
  rw [validateYamlSyntax] at hd
  split at hd
  · simp at hd
  · split at hd
    · split at hd
      · rw [List.mem_singleton] at hd
        subst hd
        exact pMissing_false_of_head f _ 'Y' (headCharAppend _ _ _ (by decide)) (by decide)
      · simp at hd
    · rw [List.mem_append] at hd
      rcases hd with hd | hd <;> (rw [List.mem_map] at hd; obtain ⟨e, he, rfl⟩ := hd)
      · exact pMissing_false_of_head f _ 'Y' (headCharAppend _ _ _ (by decide)) (by decide)
      · exact pMissing_false_of_head f _ 'Y' (headCharAppend _ _ _ (by decide)) (by decide)

theorem validateWorkspaceSchema_count (doc : JsVal) (lines : List String) (f : String)
    (hf : f = "name" ∨ f = "organization") (hm : jsTruthy (doc.get f) = false) :
    countIf (pMissing f) (validateWorkspaceSchema doc lines) = 1 := by
  rw [validateWorkspaceSchema, countIf_append, countIf_append]
  have hcfg : ∀ l2 : List Diagnostic,
      (if jsTruthy (doc.get "config") &&
          jsTruthy ((doc.get "config").get "image") &&
          decide (jsTypeof ((doc.get "config").get "image") ≠ "object") &&
          decide (jsTypeof ((doc.get "config").get "image") ≠ "string") then
        [⟨(findTextInDocument lines "image:").getD zeroRange,
          "Config field 'image' should be an object or string", .warning⟩]
      else []) = l2 →
      countIf (pMissing f) l2 = 0 := by
    intro l2 hl2
    subst hl2
    split
    · apply countIf_eq_zero
      intro d hd
      rw [List.mem_singleton] at hd
      subst hd
      exact pMissing_false_of_head f _ 'C'
        (show ("Config field 'image' should be an object or string").data.head?
            = some 'C' by decide)
        (by decide)
    · rfl
  have hblk : countIf (pMissing f)
      (if jsTruthy (doc.get "blocks") && jsIsArray (doc.get "blocks") then
        listConcatMap (fun (ib : Nat × JsVal) =>
          let i := ib.1
          let b := ib.2
          (if !jsTruthy (b.get "name") then
            [⟨(findTextInDocument lines "- name:").getD zeroRange,
              "Block at index " ++ toString i ++ " is missing required field: name",
              .error⟩]
          else [])
          ++ (if !jsTruthy (b.get "kind") then
            [⟨((match findBlockFieldInDocument lines (jsToDisplay (b.get "name")) "kind" with
                | some r => some r
                | none => findBlockInDocument lines (jsToDisplay (b.get "name"))).getD
                zeroRange),
              "Block '" ++ (if jsTruthy (b.get "name") then jsToDisplay (b.get "name")
                else "unnamed") ++ "' is missing required field: kind", .error⟩]
          else []))
          (withIdx 0 (jsArr (doc.get "blocks")))
      else []) = 0 := by
    split
    · apply countIf_eq_zero
      intro d hd
      rw [mem_listConcatMap] at hd
      obtain ⟨ib, _, hd⟩ := hd
      rw [List.mem_append] at hd
      rcases hd with hd | hd <;> split at hd <;>
        first
          | (rw [List.mem_singleton] at hd
             subst hd
             exact pMissing_false_of_head f _ 'B'
               (headCharAppend _ _ _ (headCharAppend _ _ _ (by decide))) (by decide))
          | simp at hd
    · rfl
  rw [hcfg _ rfl, hblk]
  rcases hf with rfl | rfl
  · by_cases ho : jsTruthy (doc.get "organization") = true
    · simp [List.filter_cons, List.filter_nil, hm, ho, countIf, pMissing, mkMissingFieldDiag]
    · have ho2 : jsTruthy (doc.get "organization") = false := Bool.eq_false_iff.mpr ho
      simp [List.filter_cons, List.filter_nil, hm, ho2, countIf, pMissing,
        mkMissingFieldDiag]
  · by_cases hn : jsTruthy (doc.get "name") = true
    · simp [List.filter_cons, List.filter_nil, hm, hn, countIf, pMissing, mkMissingFieldDiag]
    · have hn2 : jsTruthy (doc.get "name") = false := Bool.eq_false_iff.mpr hn
      simp [List.filter_cons, List.filter_nil, hm, hn2, countIf, pMissing,
        mkMissingFieldDiag]

/-- Counterexample for C4: with the CLI available but its snapshot call
failing, a workspace document missing the organization field produces zero
missing-field error diagnostics: the fallback rule set does not run. -/
theorem c4_fallback_cex :
    envC4b.cliAvailable = true
    ∧ jsTruthy (c4doc.get "organization") = false
    ∧ countIf (pMissing "organization")
        (validateFile envC4b "workspace.poly" ["w"] c4content) = 0 := by
  refine ⟨rfl, by decide, by decide⟩

/-- Claim C4 as amended: the minimal local rule set runs only when the CLI
itself is unavailable (not when an available CLI's snapshot call fails): in
that case, a parsed workspace document missing a mandatory identity field
yields exactly one Error diagnostic for that field through the fallback
schema validation. -/
theorem c4_fallback_amended (env : Env) (fileDir : List String) (content : String)
    (doc : JsVal) (f : String)
    (hcli : env.cliAvailable = false)
    (hyaml : env.yamlAvailable = true)
    (hparse : env.yparse content = .ok doc)
    (htruthy : jsTruthy doc = true)
    (hf : f = "name" ∨ f = "organization")
    (hm : jsTruthy (doc.get f) = false) :
    countIf (pMissing f) (validateFile env "workspace.poly" fileDir content) = 1 := by
  rw [validateFile, if_neg (by simp [hcli]), countIf_append, validateYamlSyntax_count]
  have hschema : validatePolycrateSchema env "workspace.poly" content
      = validateWorkspaceSchema doc (splitLines content) := by
    rw [validatePolycrateSchema, if_neg (by simp [hyaml]), hparse]
    simp [htruthy]
  rw [hschema, validateWorkspaceSchema_count doc _ f hf hm]

/-- Witness for C4 as amended at the CLI-unavailable environment. -/
theorem c4_fallback_witness :
    countIf (pMissing "organization")
      (validateFile envC4 "workspace.poly" ["w"] c4content) = 1 :=
  c4_fallback_amended envC4 ["w"] c4content c4doc "organization" rfl rfl rfl
    (by decide) (Or.inr rfl) (by decide)

/-! ## Claim C1 -/

/-- Counterexample for C1: in a document whose second block's name alp is a
substring of the first block's name alpha, both latest-tag warnings are
attributed to line 2 (alpha's from line), although the second entity's own
from line is line 4: the range of the second Warning is not resolved to that
block's own from line. -/
theorem c1_range_cex :
    (validateFromFieldsInDocument envCx cxContent).map (fun d => d.range.startLine)
      = [2, 2]
    ∧ jsTrim (lineAt (splitLines cxContent) 3) = "- name: alp"
    ∧ jsTrim (lineAt (splitLines cxContent) 4) = "from: registry/y:latest"
    ∧ findBlockFieldInDocument (splitLines cxContent) "alpha" "from"
        = some ⟨2, 4, 2, 9⟩ := by
  refine ⟨by decide, by decide, by decide, by decide⟩

/-- Claim C1 as amended: the raw-text version-reference check is per-entity:
the diagnostics of a document with a blocks array are the concatenation of
each block's independent check, in block order; a block with a truthy name and
a truthy string from value containing a latest marker yields exactly one
Warning, and one containing no version delimiter yields exactly one Warning;
each Warning's range is resolved by a scoped search keyed on the block's name
with substring matching, which is the block's own from line when no other
entity's name line contains the name; in particular, on the three-entity
document where only beta is unpinned, the output is exactly one Warning whose
range is beta's own from line, and alpha and gamma contribute nothing. -/
theorem c1_per_entity_amended :
    (∀ (env : Env) (content : String) (doc : JsVal) (es : JsElems),
      env.yamlAvailable = true → env.yparse content = .ok doc →
      jsTruthy doc = true → doc.get "blocks" = .varr es →
      validateFromFieldsInDocument env content
        = listConcatMap (checkBlockFrom (splitLines content)) es.toList)
    ∧ (∀ (lines : List String) (b : JsVal) (s : String),
        b.get "from" = .vstr s → jsTruthy (JsVal.vstr s) = true →
        jsTruthy (b.get "name") = true →
        (((jsIncludes s ":latest" || jsIncludes s "@latest") = true →
          (checkBlockFrom lines b).length = 1)
        ∧ ((jsIncludes s ":latest" || jsIncludes s "@latest") = false →
            hasVersionTag s = false → (checkBlockFrom lines b).length = 1)))
    ∧ ((validateFromFieldsInDocument envC1 d3content).map (fun d => (d.range, d.severity))
        = [(⟨4, 4, 4, 9⟩, Severity.warning)]
      ∧ findBlockFieldInDocument (splitLines d3content) "beta" "from" = some ⟨4, 4, 4, 9⟩
      ∧ checkBlockFrom (splitLines d3content) d3block1 = []
      ∧ checkBlockFrom (splitLines d3content) d3block3 = []) := by
  refine ⟨?_, ?_, by decide, by decide, by decide, by decide⟩
  · intro env content doc es hy hp ht hb
    rw [validateFromFieldsInDocument, if_neg (by simp [hy]), hp]
    simp only [ht, hb]
    rfl
  · intro lines b s hv hs hn
    constructor
    · intro hlatest
      simp [checkBlockFrom, hv, hs, hn, hlatest]
    · intro hlatest hver
      simp [checkBlockFrom, hv, hs, hn, hlatest, hver]

/-- Witness for C1 as amended, applying the per-entity decomposition and the
single-warning rule at the three-entity document. -/
theorem c1_per_entity_witness :
    validateFromFieldsInDocument envC1 d3content
      = listConcatMap (checkBlockFrom (splitLines d3content))
          (jsElemsOf [d3block1, d3block2, d3block3]).toList
    ∧ (checkBlockFrom (splitLines d3content) d3block2).length = 1 :=
  ⟨c1_per_entity_amended.1 envC1 d3content d3doc
      (jsElemsOf [d3block1, d3block2, d3block3]) rfl rfl (by decide) rfl,
    (c1_per_entity_amended.2.1 (splitLines d3content) d3block2 "registry/y:latest"
      rfl (by decide) (by decide)).1 (by decide)⟩

/-! ## Claim C2 -/

theorem drop_cons_parts {α : Type} {l : List α} {i : Nat} {a : α} {rest : List α}
    (h : l.drop i = a :: rest) :
    l.get? i = some a ∧ l.drop (i + 1) = rest := by
  induction l generalizing i with
  | nil => simp at h
  | cons x t ih =>
    cases i with
    | zero =>
      simp only [List.drop_zero] at h
      injection h with h1 h2
      subst h1
      subst h2
      exact ⟨rfl, by simp⟩
    | succ n =>
      simp only [List.drop_succ_cons] at h
      have hr := ih (i := n) h
      exact ⟨by simpa using hr.1, by simpa using hr.2⟩

theorem findBFAux_sound (lines : List String) (bn fn : String) :
    ∀ (l : List String) (i : Nat) (inTgt : Bool) (bInd : Int) (r : Range),
      l = lines.drop i →
      (inTgt = true → ∃ j, j < i ∧ opensBlockAt lines bn j ∧ bInd = indAt lines j ∧
        ∀ k, j < k → k < i → ¬(nameLineAt lines k ∧ indAt lines k ≤ bInd)) →
      findBFAux bn fn i l inTgt bInd = some r →
      ∃ j, opensBlockAt lines bn j ∧ j < r.startLine ∧
        (∀ k, j < k → k < r.startLine →
          ¬(nameLineAt lines k ∧ indAt lines k ≤ indAt lines j)) ∧
        jsStartsWith (jsTrim (lineAt lines r.startLine)) (fn ++ ":") = true := by
  intro l
  induction l with
  | nil =>
    intro i inTgt bInd r _ _ heq
    simp [findBFAux] at heq
  | cons line rest ih =>
    intro i inTgt bInd r hdrop hinv heq
    obtain ⟨hget, hdrop2⟩ := drop_cons_parts hdrop.symm
    have hline : lineAt lines i = line := by rw [lineAt, hget]; rfl
    rw [findBFAux] at heq
    by_cases hOpen : (jsStartsWith (jsTrim line) "- name:"
        && jsIncludes (jsTrim line) bn) = true
    · rw [if_pos hOpen] at heq
      obtain ⟨hsw, hincl⟩ : jsStartsWith (jsTrim line) "- name:" = true
          ∧ jsIncludes (jsTrim line) bn = true := by simpa using hOpen
      refine ih (i + 1) true ((jsIndent line : Int)) r hdrop2.symm ?_ heq
      intro _
      refine ⟨i, Nat.lt_succ_self i, ?_, ?_, ?_⟩
      · exact ⟨by rw [nameLineAt, hline]; exact hsw, by rw [hline]; exact hincl⟩
      · rw [indAt, hline]
      · intro k hk1 hk2
        omega
    · rw [if_neg hOpen] at heq
      by_cases hClose : (inTgt && decide ((jsIndent line : Int) ≤ bInd)
          && jsStartsWith (jsTrim line) "- name:") = true
      · rw [if_pos hClose] at heq
        rw [if_neg (by simp)] at heq
        refine ih (i + 1) false bInd r hdrop2.symm ?_ heq
        intro hc
        exact absurd hc (by decide)
      · rw [if_neg hClose] at heq
        by_cases hFound : (inTgt && jsStartsWith (jsTrim line) (fn ++ ":")) = true
        · rw [if_pos hFound] at heq
          obtain ⟨hTgt, hField⟩ : inTgt = true
              ∧ jsStartsWith (jsTrim line) (fn ++ ":") = true := by simpa using hFound
          have hr := Option.some.inj heq
          obtain ⟨j, hj, hopen, hbind, hintva⟩ := hinv hTgt
          have hstart : r.startLine = i := by rw [← hr]
          refine ⟨j, hopen, by omega, ?_, ?_⟩
          · intro k hk1 hk2
            rw [hstart] at hk2
            have := hintva k hk1 hk2
            rwa [hbind] at this
          · rw [hstart, hline]
            exact hField
        · rw [if_neg hFound] at heq
          refine ih (i + 1) inTgt bInd r hdrop2.symm ?_ heq
          intro hTgt
          obtain ⟨j, hj, hopen, hbind, hintva⟩ := hinv hTgt
          refine ⟨j, by omega, hopen, hbind, ?_⟩
          intro k hk1 hk2
          rcases Nat.lt_succ_iff_lt_or_eq.mp hk2 with hk3 | rfl
          · exact hintva k hk1 hk3
          · rintro ⟨hnm, hle⟩
            rw [nameLineAt, hline] at hnm
            rw [indAt, hline] at hle
            apply hClose
            rw [hTgt, hnm, decide_eq_true hle]
            rfl

/-- Counterexample for C2: in exC2, block alpha has no version field of its
own; its span ends at line 2 (line 3 sits at indent 0, at most alpha's marker
indent 2, and the program's own scope scan no longer reports alpha open at
line 4), yet resolving alpha's version field returns the version line of the
unrelated top-level config mapping on line 4 — a range outside alpha's span. -/
theorem c2_span_cex :
    findBlockFieldInDocument exC2 "alpha" "version" = some ⟨4, 2, 4, 10⟩
    ∧ (hoverScan exC2 4).currentBlockName = none
    ∧ jsTrim (lineAt exC2 1) = "- name: alpha"
    ∧ jsTrim (lineAt exC2 3) = "config:"
    ∧ indAt exC2 3 ≤ indAt exC2 1 := by
  refine ⟨by decide, by decide, by decide, by decide, by decide⟩

/-- Claim C2 as amended: any range returned by findBlockFieldInDocument lies
strictly after a marker line that contains the entity's name as a substring,
with no further sequence-item marker at that marker's indent or less in
between, and the returned line carries the field; the search is thus scoped
between name markers (not by the entity's indentation span, which dedented
non-marker lines can escape, and with substring rather than exact name
matching). -/
theorem c2_scoped_resolution_amended (lines : List String) (bn fn : String) (r : Range)
    (h : findBlockFieldInDocument lines bn fn = some r) :
    ∃ j, opensBlockAt lines bn j ∧ j < r.startLine ∧
      (∀ k, j < k → k < r.startLine →
        ¬(nameLineAt lines k ∧ indAt lines k ≤ indAt lines j)) ∧
      jsStartsWith (jsTrim (lineAt lines r.startLine)) (fn ++ ":") = true :=
  findBFAux_sound lines bn fn lines 0 false (-1) r (List.drop_zero lines).symm
    (fun hc => absurd hc (by decide)) h

/-- Witness for C2 as amended: resolving beta's from field in the three-entity
document lands after beta's marker with no intervening closer and on a from
line. -/
theorem c2_scoped_resolution_witness :
    ∃ j, opensBlockAt (splitLines d3content) "beta" j ∧ j < 4 ∧
      (∀ k, j < k → k < 4 →
        ¬(nameLineAt (splitLines d3content) k
          ∧ indAt (splitLines d3content) k ≤ indAt (splitLines d3content) j)) ∧
      jsStartsWith (jsTrim (lineAt (splitLines d3content) 4)) ("from" ++ ":") = true :=
  c2_scoped_resolution_amended (splitLines d3content) "beta" "from" ⟨4, 4, 4, 9⟩
    (by decide)

end VP
